import Mathlib

/-!
# Verification of the slab allocator (`src/main.rs`)

Shallow embedding of the slab allocator.  The backing arena (`PAGE_POOL`,
`PAGE_POOL_USED`) is modelled by an `Arena` record: `used` is the byte
cursor, and `mem : Nat → Nat` records, for each address inside the pool,
the pointer-sized link value most recently stored there (the intrusive
free-list links and the page-header back-links are the only words the
allocator itself ever writes).  Addresses are absolute `Nat`s; the pool
starts at an arbitrary address `base` (the address of the `PAGE_POOL`
static); the null pointer is `0`.

Machine integers (`usize`) are 64-bit on the platform the spec fixes
("8-byte-pointer platform"); arithmetic that cannot overflow in the
allocator's tiny ranges is carried out on `Nat`, and the one place where
a `usize` computation can overflow (the alignment round-up inside
`SlabAllocator::new`) is modelled explicitly: an overflowing input makes
`new` return `none` (in a debug build the addition panics; in a release
build the sum wraps below 8, the mask sends it to 0, and the subsequent
division by zero panics).

`alloc` returns `Option (Option Nat × SlabAllocator × Arena)`: the outer
`none` marks undefined behaviour (the null-pointer dereference `(*obj).next`
that the source performs when `allocate_page` succeeds but pushes no
objects because `objects_per_page == 0`); `some (none, _, _)` is the
source's `None` return (allocation failure); `some (some a, _, _)` is a
successful allocation returning address `a`.
-/

namespace SlabModel

/-- `PAGE_SIZE` from the source. -/
def PAGE_SIZE : Nat := 4096

/-- `MAX_PAGES` from the source. -/
def MAX_PAGES : Nat := 16

/-- Number of values of the 64-bit `usize` type. -/
def USIZE : Nat := 2 ^ 64

/-- `size_of::<*mut FreeObject>()` = `align_of::<*mut FreeObject>()` =
`size_of::<PageHeader>()` = 8 on the 8-byte-pointer platform. -/
def PTR_SIZE : Nat := 8

/-- The `SlabAllocator` struct: `object_size`, `objects_per_page`, and the
two raw pointers `free_list` and `pages` (null = `0`). -/
structure SlabAllocator where
  object_size : Nat
  objects_per_page : Nat
  free_list : Nat
  pages : Nat
deriving DecidableEq

/-- The arena: `PAGE_POOL_USED` plus the pointer-sized words the allocator
has stored into the pool (indexed by absolute address). -/
structure Arena where
  used : Nat
  mem : Nat → Nat

/-- Store value `v` at address `a` (model of writing one pointer-sized
field into the pool). -/
def wr (m : Nat → Nat) (a v : Nat) : Nat → Nat :=
  fun x => if x = a then v else m x

/-- The arena at process start: `used = 0`, pool zeroed. -/
def freshArena : Arena := ⟨0, fun _ => 0⟩

/-- `SlabAllocator::new`.  Mirrors the source:
`object_size.max(8)`, then round up with `(os + 8 - 1) & !(8 - 1)`
(the mask `!7` on `usize` is `2^64 - 8`), then
`objects_per_page = (PAGE_SIZE - 8) / object_size`.
The guard `max _ 8 + 7 < USIZE` marks the inputs on which the `usize`
round-up overflows: there the Rust code panics (overflow check in debug;
wrapped-to-`0` divisor in release), modelled as `none`. -/
def SlabAllocator.new (object_size : Nat) : Option SlabAllocator :=
  let os1 := max object_size PTR_SIZE
  if os1 + (PTR_SIZE - 1) < USIZE then
    let os2 := (os1 + (PTR_SIZE - 1)) &&& (USIZE - PTR_SIZE)
    some { object_size := os2
           objects_per_page := (PAGE_SIZE - PTR_SIZE) / os2
           free_list := 0
           pages := 0 }
  else
    none

/-- Addresses of the `n` object slots carved from a data region starting at
`ds` with stride `os`: the loop `for i in 0..objects_per_page` visits
`data_start.add(i * object_size)`. -/
def slotAddrs (ds os n : Nat) : List Nat :=
  (List.range n).map fun i => ds + i * os

/-- The page-carving loop body: for each address `a` in order, store the
current free-list head into `a`'s link field and make `a` the new head.
Returns the final memory and free-list head. -/
def carve (mem : Nat → Nat) (fl : Nat) : List Nat → ((Nat → Nat) × Nat)
  | [] => (mem, fl)
  | a :: rest => carve (wr mem a fl) a rest

/-- `SlabAllocator::allocate_page`.  Fails (`none`) iff
`PAGE_POOL_USED + PAGE_SIZE > MAX_PAGES * PAGE_SIZE`; otherwise claims the
page at `base + used`, advances `used`, writes the page header's `next`
back-link, pushes every slot of the new page onto the free list in slot
order, and records the page as the new head of `pages`. -/
def SlabAllocator.allocate_page (base : Nat) (sl : SlabAllocator) (ar : Arena) :
    Option (SlabAllocator × Arena) :=
  if ar.used + PAGE_SIZE > MAX_PAGES * PAGE_SIZE then
    none
  else
    let page_ptr := base + ar.used
    let mem1 := wr ar.mem page_ptr sl.pages
    let data_start := page_ptr + PTR_SIZE
    let c := carve mem1 sl.free_list (slotAddrs data_start sl.object_size sl.objects_per_page)
    some ({ sl with free_list := c.2, pages := page_ptr },
          { used := ar.used + PAGE_SIZE, mem := c.1 })

/-- `SlabAllocator::alloc`.  If the free list is null, carve a page (the
`?` propagates a carve failure as `None` with the state untouched).  Then
pop the head: `obj = free_list; free_list = (*obj).next`.  When the head
is still null after a successful carve (`objects_per_page == 0`), the
source dereferences the null pointer: modelled as the outer `none`
(undefined behaviour). -/
def SlabAllocator.alloc (base : Nat) (sl : SlabAllocator) (ar : Arena) :
    Option (Option Nat × SlabAllocator × Arena) :=
  match (if sl.free_list = 0 then sl.allocate_page base ar else some (sl, ar)) with
  | none => some (none, sl, ar)
  | some (sl1, ar1) =>
    if sl1.free_list = 0 then
      none
    else
      some (some sl1.free_list, { sl1 with free_list := ar1.mem sl1.free_list }, ar1)

/-- `SlabAllocator::free`.  If the address lies outside
`[pool_start, pool_start + MAX_PAGES*PAGE_SIZE)`, return without any
effect; otherwise store the current head into the slot's link field and
make the slot the new head. -/
def SlabAllocator.free (base : Nat) (sl : SlabAllocator) (ar : Arena) (p : Nat) :
    SlabAllocator × Arena :=
  if p < base ∨ p ≥ base + MAX_PAGES * PAGE_SIZE then
    (sl, ar)
  else
    ({ sl with free_list := p }, { ar with mem := wr ar.mem p sl.free_list })

/-- Just the address returned by one `alloc` call (`none` when the call
fails or is undefined behaviour). -/
def allocRet (base : Nat) (sl : SlabAllocator) (ar : Arena) : Option Nat :=
  match sl.alloc base ar with
  | some (some a, _, _) => some a
  | _ => none

/-- Run `n` consecutive `alloc` calls, collecting the returned addresses;
`none` if any call fails or is undefined behaviour. -/
def allocN (base : Nat) : Nat → SlabAllocator → Arena → Option (List Nat × SlabAllocator × Arena)
  | 0, sl, ar => some ([], sl, ar)
  | n + 1, sl, ar =>
    match sl.alloc base ar with
    | some (some a, sl1, ar1) =>
      match allocN base n sl1 ar1 with
      | some (as, sl2, ar2) => some (a :: as, sl2, ar2)
      | none => none
    | _ => none

/-- Run `free` on each address of `q`, in order. -/
def freeAll (base : Nat) : List Nat → SlabAllocator → Arena → SlabAllocator × Arena
  | [], sl, ar => (sl, ar)
  | p :: rest, sl, ar =>
    let s := sl.free base ar p
    freeAll base rest s.1 s.2

/-- Arena cursor after `n` alloc calls from a fresh arena (`none` if some
call fails or is undefined behaviour). -/
def usedAfter (base n : Nat) (sl : SlabAllocator) : Option Nat :=
  match allocN base n sl freshArena with
  | some (_, _, ar) => some ar.used
  | none => none

/-- `FLRepr mem fl L`: starting from head pointer `fl` and following the
link stored at each node, the free list is exactly the list `L` of node
addresses (`0` terminates). -/
inductive FLRepr (mem : Nat → Nat) : Nat → List Nat → Prop
  | nil : FLRepr mem 0 []
  | cons {a : Nat} {L : List Nat} : a ≠ 0 → FLRepr mem (mem a) L → FLRepr mem a (a :: L)

end SlabModel

namespace SlabModel

/-- Well-formedness of an allocator instance as produced by `new`: the slot
size is at least pointer-sized and a full page of slots fits in the page's
usable space. -/
def SlabWF (sl : SlabAllocator) : Prop :=
  PTR_SIZE ≤ sl.object_size ∧
  sl.objects_per_page * sl.object_size ≤ PAGE_SIZE - PTR_SIZE

/-- Configuration of one allocator instance driven by a caller: the
instance, the arena, and the list of outstanding (handed-out, not yet
freed) addresses. -/
structure C2Cfg where
  sl : SlabAllocator
  ar : Arena
  out : List Nat

/-- The free-list safety invariant: the allocator is well formed, the
arena cursor is in range, and the free list is a chain of distinct carved
addresses disjoint from the outstanding set. -/
def Inv (base : Nat) (c : C2Cfg) : Prop :=
  SlabWF c.sl ∧ c.ar.used ≤ MAX_PAGES * PAGE_SIZE ∧
  ∃ L, FLRepr c.ar.mem c.sl.free_list L ∧ (L ++ c.out).Nodup ∧
    ∀ x ∈ L ++ c.out, base ≤ x ∧ x < base + c.ar.used

/-- Proper-use histories of one instance: start from a freshly constructed
allocator and a fresh arena; allocate; free only currently outstanding
addresses (no double-free, no foreign pointers). -/
inductive Reach (base : Nat) : C2Cfg → Prop
  | init (s : Nat) (sl0 : SlabAllocator) (h : SlabAllocator.new s = some sl0) :
      Reach base ⟨sl0, freshArena, []⟩
  | step_alloc {c : C2Cfg} {a : Nat} {sl' : SlabAllocator} {ar' : Arena}
      (hr : Reach base c)
      (h : c.sl.alloc base c.ar = some (some a, sl', ar')) :
      Reach base ⟨sl', ar', a :: c.out⟩
  | step_free {c : C2Cfg} {a : Nat}
      (hr : Reach base c) (ha : a ∈ c.out) :
      Reach base ⟨(c.sl.free base c.ar a).1, (c.sl.free base c.ar a).2, c.out.erase a⟩

/-- A shared-arena world: any number of allocator instances plus the arena. -/
structure MCfg where
  sls : List SlabAllocator
  ar : Arena

/-- One step of a multi-instance history: construct a new instance, or run
`alloc` or `free` (with an arbitrary pointer) on any existing instance. -/
inductive MStep (base : Nat) : MCfg → MCfg → Prop
  | mk_new (m : MCfg) (s : Nat) (sl : SlabAllocator)
      (h : SlabAllocator.new s = some sl) :
      MStep base m ⟨sl :: m.sls, m.ar⟩
  | do_alloc (m : MCfg) (i : Nat) (sl sl' : SlabAllocator) (r : Option Nat) (ar' : Arena)
      (hget : m.sls.get? i = some sl)
      (h : sl.alloc base m.ar = some (r, sl', ar')) :
      MStep base m ⟨m.sls.set i sl', ar'⟩
  | do_free (m : MCfg) (i : Nat) (sl : SlabAllocator) (p : Nat)
      (hget : m.sls.get? i = some sl) :
      MStep base m ⟨m.sls.set i (sl.free base m.ar p).1, (sl.free base m.ar p).2⟩

/-- Multi-instance histories from process start. -/
inductive MReach (base : Nat) : MCfg → Prop
  | init : MReach base ⟨[], freshArena⟩
  | step {m m' : MCfg} (hr : MReach base m) (hs : MStep base m m') : MReach base m'

end SlabModel
namespace SlabModel

lemma and_mask_eq_div_mul (m : Nat) (hm : m < 2 ^ 64) :
    m &&& (2 ^ 64 - 8) = m / 8 * 8 := by
  have hmask : (2 ^ 64 - 8 : Nat) = (2 ^ 61 - 1) <<< 3 := by
    rw [Nat.shiftLeft_eq]; norm_num
  have hrhs : m / 8 * 8 = (m >>> 3) <<< 3 := by
    rw [Nat.shiftLeft_eq, Nat.shiftRight_eq_div_pow]
  rw [hmask, hrhs]
  apply Nat.eq_of_testBit_eq
  intro i
  rw [Nat.testBit_and, Nat.testBit_shiftLeft, Nat.testBit_shiftLeft, Nat.testBit_shiftRight,
    Nat.testBit_two_pow_sub_one]
  rcases Nat.lt_or_ge i 3 with h3 | h3
  · have : ¬ (i ≥ 3) := by omega
    simp [this]
  · have h3d : (i ≥ 3) := h3
    have hidx : 3 + (i - 3) = i := by omega
    rcases Nat.lt_or_ge i 64 with h64 | h64
    · have : i - 3 < 61 := by omega
      simp [h3d, this, hidx]
    · have h61 : ¬ (i - 3 < 61) := by omega
      have hbit : m.testBit i = false :=
        Nat.testBit_lt_two_pow (Nat.lt_of_lt_of_le hm (Nat.pow_le_pow_right (by norm_num) h64))
      simp [h3d, h61, hidx, hbit]

end SlabModel
namespace SlabModel

lemma FLRepr_nil_elim {mem : Nat → Nat} {fl : Nat} (h : FLRepr mem fl []) : fl = 0 := by
  cases h; rfl

lemma FLRepr_cons_elim {mem : Nat → Nat} {fl a : Nat} {L : List Nat}
    (h : FLRepr mem fl (a :: L)) : fl = a ∧ a ≠ 0 ∧ FLRepr mem (mem a) L := by
  cases h with
  | cons hne hnext => exact ⟨rfl, hne, hnext⟩

lemma FLRepr.write_outside {mem : Nat → Nat} {fl : Nat} {L : List Nat}
    (h : FLRepr mem fl L) {a : Nat} (ha : a ∉ L) (v : Nat) :
    FLRepr (wr mem a v) fl L := by
  induction h with
  | nil => exact .nil
  | cons hne hnext ih =>
    rename_i b L'
    refine .cons hne ?_
    have hba : b ≠ a := fun hh => ha (hh ▸ List.mem_cons_self b L')
    have : wr mem a v b = mem b := by simp [wr, hba]
    rw [this]
    exact ih (fun hx => ha (List.mem_cons_of_mem b hx))

lemma FLRepr.push {mem : Nat → Nat} {fl : Nat} {L : List Nat}
    (h : FLRepr mem fl L) {a : Nat} (ha0 : a ≠ 0) (ha : a ∉ L) :
    FLRepr (wr mem a fl) a (a :: L) := by
  refine .cons ha0 ?_
  have : wr mem a fl a = fl := by simp [wr]
  rw [this]
  exact h.write_outside ha fl

lemma FLRepr.unique {mem : Nat → Nat} {fl : Nat} {L : List Nat}
    (h : FLRepr mem fl L) : ∀ {L' : List Nat}, FLRepr mem fl L' → L = L' := by
  induction h with
  | nil =>
    intro L' h'
    cases h' with
    | nil => rfl
    | cons hne _ => exact absurd rfl hne
  | cons hne hnext ih =>
    intro L' h'
    cases h' with
    | nil => exact absurd rfl hne
    | cons hne' hnext' => rw [ih hnext']

lemma carve_spec : ∀ (as : List Nat) (mem : Nat → Nat) (fl : Nat) (L : List Nat),
    FLRepr mem fl L → (∀ x ∈ as, x ≠ 0 ∧ x ∉ L) → as.Nodup →
    FLRepr (carve mem fl as).1 (carve mem fl as).2 (as.reverse ++ L)
  | [], mem, fl, L, h, _, _ => by simpa [carve]
  | a :: rest, mem, fl, L, h, hmem, hnd => by
    have ha := hmem a (List.mem_cons_self a rest)
    have hp : FLRepr (wr mem a fl) a (a :: L) := h.push ha.1 ha.2
    have hrest : ∀ x ∈ rest, x ≠ 0 ∧ x ∉ a :: L := by
      intro x hx
      have hxa : x ≠ a := by
        intro hh; subst hh; exact (List.nodup_cons.1 hnd).1 hx
      have := hmem x (List.mem_cons_of_mem a hx)
      exact ⟨this.1, by simp [hxa, this.2]⟩
    have := carve_spec rest (wr mem a fl) a (a :: L) hp hrest (List.nodup_cons.1 hnd).2
    simpa [carve, List.append_assoc] using this

end SlabModel
namespace SlabModel

lemma slotAddrs_nodup {ds os n : Nat} (hos : 0 < os) : (slotAddrs ds os n).Nodup := by
  refine List.Nodup.map_on ?_ (List.nodup_range n)
  intro x _ y _ h
  have hxy : x * os = y * os := by omega
  exact Nat.eq_of_mul_eq_mul_right hos hxy

lemma slotAddrs_bounds {ds os n : Nat} (hos : 0 < os)
    (hcap : n * os ≤ PAGE_SIZE - PTR_SIZE) :
    ∀ x ∈ slotAddrs ds os n, ds ≤ x ∧ x < ds + (PAGE_SIZE - PTR_SIZE) := by
  intro x hx
  simp only [slotAddrs, List.mem_map, List.mem_range] at hx
  obtain ⟨i, hi, rfl⟩ := hx
  have h1 : (i + 1) * os ≤ n * os := Nat.mul_le_mul_right os (by omega)
  rw [Nat.succ_mul] at h1
  constructor
  · omega
  · have hos' : 0 < os := hos
    omega

lemma new_elim {s : Nat} {sl : SlabAllocator} (h : SlabAllocator.new s = some sl) :
    max s PTR_SIZE + (PTR_SIZE - 1) < USIZE ∧
    sl.object_size = (max s PTR_SIZE + (PTR_SIZE - 1)) / PTR_SIZE * PTR_SIZE ∧
    sl.objects_per_page = (PAGE_SIZE - PTR_SIZE) / sl.object_size ∧
    sl.free_list = 0 ∧ sl.pages = 0 := by
  simp only [SlabAllocator.new] at h
  split at h
  case isTrue hc =>
    have hmask : (max s PTR_SIZE + (PTR_SIZE - 1)) &&& (USIZE - PTR_SIZE)
        = (max s PTR_SIZE + (PTR_SIZE - 1)) / PTR_SIZE * PTR_SIZE := by
      have := and_mask_eq_div_mul (max s PTR_SIZE + (PTR_SIZE - 1))
        (by simpa [USIZE] using hc)
      simpa [USIZE, PTR_SIZE] using this
    simp only [Option.some.injEq] at h
    subst h
    exact ⟨hc, hmask, by rw [hmask], rfl, rfl⟩
  case isFalse hc =>
    exact absurd h (by simp)

lemma new_wf {s : Nat} {sl : SlabAllocator} (h : SlabAllocator.new s = some sl) :
    SlabWF sl ∧ sl.free_list = 0 ∧ sl.pages = 0 := by
  obtain ⟨-, hos, hopp, hfl, hpg⟩ := new_elim h
  refine ⟨⟨?_, ?_⟩, hfl, hpg⟩
  · rw [hos]
    have h8 : PTR_SIZE ≤ max s PTR_SIZE := le_max_right _ _
    have : (PTR_SIZE : Nat) = 8 := rfl
    have hq : 1 ≤ (max s PTR_SIZE + (PTR_SIZE - 1)) / PTR_SIZE := by
      rw [Nat.one_le_div_iff (by omega)]
      omega
    calc PTR_SIZE = 1 * PTR_SIZE := by omega
    _ ≤ (max s PTR_SIZE + (PTR_SIZE - 1)) / PTR_SIZE * PTR_SIZE :=
        Nat.mul_le_mul_right _ hq
  · rw [hopp]
    exact Nat.div_mul_le_self _ _

lemma allocate_page_spec {base : Nat} {sl : SlabAllocator} {ar : Arena} {L : List Nat}
    (hb : 0 < base)
    (hcap : ar.used + PAGE_SIZE ≤ MAX_PAGES * PAGE_SIZE)
    (hwf : SlabWF sl)
    (hL : FLRepr ar.mem sl.free_list L)
    (hLb : ∀ x ∈ L, base ≤ x ∧ x < base + ar.used) :
    ∃ sl' ar', sl.allocate_page base ar = some (sl', ar') ∧
      sl'.object_size = sl.object_size ∧ sl'.objects_per_page = sl.objects_per_page ∧
      sl'.pages = base + ar.used ∧
      ar'.used = ar.used + PAGE_SIZE ∧
      FLRepr ar'.mem sl'.free_list
        ((slotAddrs (base + ar.used + PTR_SIZE) sl.object_size sl.objects_per_page).reverse ++ L) := by
  obtain ⟨hos, hcount⟩ := hwf
  have hos0 : 0 < sl.object_size := by
    have : (PTR_SIZE : Nat) = 8 := rfl
    omega
  simp only [SlabAllocator.allocate_page]
  rw [if_neg (by omega)]
  refine ⟨_, _, rfl, rfl, rfl, rfl, rfl, ?_⟩
  have hmem1 : FLRepr (wr ar.mem (base + ar.used) sl.pages) sl.free_list L := by
    refine hL.write_outside (fun hx => ?_) _
    have := hLb _ hx
    omega
  have hbnd := @slotAddrs_bounds (base + ar.used + PTR_SIZE) sl.object_size sl.objects_per_page hos0 hcount
  refine carve_spec _ _ _ L hmem1 (fun x hx => ?_) (slotAddrs_nodup hos0)
  have hx' := hbnd x hx
  have hp : (0 : Nat) < PTR_SIZE := by norm_num [PTR_SIZE]
  constructor
  · omega
  · intro hmem
    have := hLb x hmem
    omega

end SlabModel
namespace SlabModel

lemma alloc_pop {base : Nat} {sl : SlabAllocator} {ar : Arena} {hd : Nat} {tl : List Nat}
    (hL : FLRepr ar.mem sl.free_list (hd :: tl)) :
    sl.alloc base ar = some (some hd, { sl with free_list := ar.mem hd }, ar) ∧
    FLRepr ar.mem (ar.mem hd) tl := by
  obtain ⟨hfl, hne, hnext⟩ := FLRepr_cons_elim hL
  refine ⟨?_, hnext⟩
  simp [SlabAllocator.alloc, hfl, hne]

lemma alloc_fail {base : Nat} {sl : SlabAllocator} {ar : Arena}
    (hfl : sl.free_list = 0) (hover : MAX_PAGES * PAGE_SIZE < ar.used + PAGE_SIZE) :
    sl.alloc base ar = some (none, sl, ar) := by
  have hap : sl.allocate_page base ar = none := by
    simp only [SlabAllocator.allocate_page]
    rw [if_pos (by omega)]
  simp [SlabAllocator.alloc, hfl, hap]

lemma slotAddrs_succ (ds os n : Nat) :
    slotAddrs ds os (n + 1) = slotAddrs ds os n ++ [ds + n * os] := by
  simp [slotAddrs, List.range_succ]

lemma alloc_ub {base : Nat} {sl : SlabAllocator} {ar : Arena}
    (hb : 0 < base)
    (hcap : ar.used + PAGE_SIZE ≤ MAX_PAGES * PAGE_SIZE)
    (hwf : SlabWF sl)
    (hfl : sl.free_list = 0)
    (hopp : sl.objects_per_page = 0) :
    sl.alloc base ar = none := by
  obtain ⟨sl1, ar1, hap, hos1, hopp1, hpg1, hused1, hrepr⟩ :=
    allocate_page_spec hb hcap hwf (hfl ▸ FLRepr.nil) (by simp)
  rw [hopp] at hrepr
  simp only [slotAddrs, List.range_zero, List.map_nil, List.reverse_nil,
    List.nil_append] at hrepr
  have hfl1 := FLRepr_nil_elim hrepr
  simp [SlabAllocator.alloc, hfl, hap, hfl1]

lemma alloc_carve_pop {base : Nat} {sl : SlabAllocator} {ar : Arena} {m : Nat}
    (hb : 0 < base)
    (hcap : ar.used + PAGE_SIZE ≤ MAX_PAGES * PAGE_SIZE)
    (hwf : SlabWF sl)
    (hfl : sl.free_list = 0)
    (hopp : sl.objects_per_page = m + 1) :
    ∃ sl' ar',
      sl.alloc base ar =
        some (some (base + ar.used + PTR_SIZE + m * sl.object_size), sl', ar') ∧
      sl'.object_size = sl.object_size ∧ sl'.objects_per_page = sl.objects_per_page ∧
      ar'.used = ar.used + PAGE_SIZE ∧
      FLRepr ar'.mem sl'.free_list
        (slotAddrs (base + ar.used + PTR_SIZE) sl.object_size m).reverse := by
  obtain ⟨sl1, ar1, hap, hos1, hopp1, hpg1, hused1, hrepr⟩ :=
    allocate_page_spec hb hcap hwf (hfl ▸ FLRepr.nil) (by simp)
  rw [List.append_nil, hopp, slotAddrs_succ, List.reverse_append,
    List.reverse_singleton, List.singleton_append] at hrepr
  obtain ⟨hfl1, hne1, hnext1⟩ := FLRepr_cons_elim hrepr
  refine ⟨{ sl1 with free_list := ar1.mem sl1.free_list }, ar1, ?_,
    by simpa using hos1, by simpa using hopp1, hused1, ?_⟩
  · simp [SlabAllocator.alloc, hfl, hap, hfl1, hne1]
  · simpa [hfl1] using hnext1

end SlabModel
namespace SlabModel

lemma inv_free {base : Nat} {c : C2Cfg} {a : Nat}
    (hb : 0 < base) (hI : Inv base c) (ha : a ∈ c.out) :
    Inv base ⟨(c.sl.free base c.ar a).1, (c.sl.free base c.ar a).2, c.out.erase a⟩ := by
  obtain ⟨hwf, hcap, L, hL, hnd, hbd⟩ := hI
  have hax := hbd a (List.mem_append_right L ha)
  have hcheck : ¬ (a < base ∨ a ≥ base + MAX_PAGES * PAGE_SIZE) := by omega
  have hfa : c.sl.free base c.ar a =
      ({ c.sl with free_list := a }, { c.ar with mem := wr c.ar.mem a c.sl.free_list }) := by
    simp [SlabAllocator.free, hcheck]
  have haL : a ∉ L := fun hx => (List.disjoint_of_nodup_append hnd) hx ha
  have hout : c.out.Nodup := (List.nodup_append.1 hnd).2.1
  rw [hfa]
  refine ⟨by simpa [SlabWF] using hwf, by simpa using hcap, a :: L, ?_, ?_, ?_⟩
  · exact hL.push (by omega) haL
  · refine List.nodup_cons.2 ⟨?_, ?_⟩
    · intro hx
      rcases List.mem_append.1 hx with hx | hx
      · exact haL hx
      · exact hout.not_mem_erase hx
    · refine List.Nodup.append (List.nodup_append.1 hnd).1 (hout.erase a) ?_
      intro x hx hy
      exact (List.disjoint_of_nodup_append hnd) hx (List.mem_of_mem_erase hy)
  · intro x hx
    rcases List.mem_cons.1 hx with rfl | hx
    · simpa using hax
    · rcases List.mem_append.1 hx with hx | hx
      · simpa using hbd x (List.mem_append_left _ hx)
      · simpa using hbd x (List.mem_append_right _ (List.mem_of_mem_erase hx))

end SlabModel
namespace SlabModel

lemma inv_alloc {base : Nat} {c : C2Cfg} {a : Nat} {sl' : SlabAllocator} {ar' : Arena}
    (hb : 0 < base) (hI : Inv base c)
    (h : c.sl.alloc base c.ar = some (some a, sl', ar')) :
    a ∉ c.out ∧ Inv base ⟨sl', ar', a :: c.out⟩ := by
  obtain ⟨hwf, hcap, L, hL, hnd, hbd⟩ := hI
  cases L with
  | cons hd tl =>
    obtain ⟨hpop, hnext⟩ := @alloc_pop base _ _ _ _ hL
    rw [hpop] at h
    simp only [Option.some.injEq, Prod.mk.injEq] at h
    obtain ⟨h1, h2, h3⟩ := h
    subst h2; subst h3; cases h1
    have hha : a ∉ c.out := fun hx =>
      (List.nodup_cons.1 hnd).1 (List.mem_append_right tl hx)
    refine ⟨hha, by simpa [SlabWF] using hwf, by simpa using hcap, tl, ?_, ?_, ?_⟩
    · simpa using hnext
    · have hnd' : (a :: (tl ++ c.out)).Nodup := hnd
      exact (List.perm_middle.nodup_iff).2 hnd'
    · intro x hx
      have hx' : x ∈ (a :: tl) ++ c.out := by
        rcases List.mem_append.1 hx with hx | hx
        · exact List.mem_append_left _ (List.mem_cons_of_mem a hx)
        · rcases List.mem_cons.1 hx with rfl | hx
          · exact List.mem_append_left _ (List.mem_cons_self _ _)
          · exact List.mem_append_right _ hx
      simpa using hbd x hx'
  | nil =>
    have hfl : c.sl.free_list = 0 := FLRepr_nil_elim hL
    have hout : c.out.Nodup := by simpa using hnd
    have hobd : ∀ x ∈ c.out, base ≤ x ∧ x < base + c.ar.used := by
      intro x hx; exact hbd x (by simpa using hx)
    by_cases hover : MAX_PAGES * PAGE_SIZE < c.ar.used + PAGE_SIZE
    · rw [alloc_fail hfl hover] at h
      simp at h
    · push_neg at hover
      rcases hm : c.sl.objects_per_page with _ | m
      · rw [alloc_ub hb hover hwf hfl hm] at h
        exact absurd h (by simp)
      · obtain ⟨sl1, ar1, hstep, hos1, hopp1, hused1, hrepr⟩ :=
          alloc_carve_pop hb hover hwf hfl hm
        rw [hstep] at h
        simp only [Option.some.injEq, Prod.mk.injEq] at h
        obtain ⟨ha1, hsl1, har1⟩ := h
        subst hsl1; subst har1
        set ds := base + c.ar.used + PTR_SIZE with hds
        set top := ds + m * c.sl.object_size with htop
        subst ha1
        have hos := hwf.1
        have hcnt := hwf.2
        have hp8 : (PTR_SIZE : Nat) = 8 := rfl
        have hpg : (PAGE_SIZE : Nat) = 4096 := rfl
        have hms : (m + 1) * c.sl.object_size ≤ PAGE_SIZE - PTR_SIZE := hm ▸ hcnt
        have hmos : m * c.sl.object_size + c.sl.object_size ≤ PAGE_SIZE - PTR_SIZE := by
          rw [Nat.succ_mul] at hms; omega
        have htopbd : ds ≤ top ∧ top < base + c.ar.used + PAGE_SIZE := by
          constructor
          · omega
          · omega
        have hSbd : ∀ x ∈ slotAddrs ds c.sl.object_size m,
            ds ≤ x ∧ x < base + c.ar.used + PAGE_SIZE := by
          intro x hx
          have := @slotAddrs_bounds ds c.sl.object_size m (by omega)
            (le_trans (by rw [Nat.succ_mul] at hms; omega) (le_refl _)) x hx
          omega
        have hSnd : (slotAddrs ds c.sl.object_size m).Nodup := slotAddrs_nodup (by omega)
        have htopS : top ∉ slotAddrs ds c.sl.object_size m := by
          intro hx
          simp only [slotAddrs, List.mem_map, List.mem_range] at hx
          obtain ⟨i, hi, hix⟩ := hx
          have : i * c.sl.object_size = m * c.sl.object_size := by omega
          have := Nat.eq_of_mul_eq_mul_right (by omega : 0 < c.sl.object_size) this
          omega
        have htopout : top ∉ c.out := by
          intro hx
          have := hobd top hx
          omega
        refine ⟨htopout, ⟨by simpa [SlabWF, hos1, hopp1] using hwf, ?_, ?_⟩⟩
        · simpa [hused1] using hover
        · refine ⟨(slotAddrs ds c.sl.object_size m).reverse, hrepr, ?_, ?_⟩
          · have hdisj : (slotAddrs ds c.sl.object_size m).reverse.Disjoint (top :: c.out) := by
              intro x hx hy
              have hxS := List.mem_reverse.1 hx
              rcases List.mem_cons.1 hy with rfl | hy
              · exact htopS hxS
              · have := hobd x hy
                have := hSbd x hxS
                omega
            exact List.Nodup.append (List.nodup_reverse.2 hSnd)
              (List.nodup_cons.2 ⟨htopout, hout⟩) hdisj
          · intro x hx
            rw [hused1]
            rcases List.mem_append.1 hx with hx | hx
            · have := hSbd x (List.mem_reverse.1 hx)
              omega
            · rcases List.mem_cons.1 hx with rfl | hx
              · omega
              · have := hobd x hx
                omega

lemma reach_inv {base : Nat} {c : C2Cfg} (hb : 0 < base) (hr : Reach base c) :
    Inv base c := by
  induction hr with
  | init s sl0 h =>
    obtain ⟨hwf, hfl, -⟩ := new_wf h
    exact ⟨hwf, by simp [freshArena], [], by rw [hfl]; exact .nil, by simp, by simp⟩
  | step_alloc hr h ih => exact (inv_alloc hb ih h).2
  | step_free hr ha ih => exact inv_free hb ih ha

end SlabModel
namespace SlabModel

lemma allocN_pop {base : Nat} : ∀ (N : Nat) (sl : SlabAllocator) (ar : Arena) (L : List Nat),
    FLRepr ar.mem sl.free_list L → N ≤ L.length →
    ∃ fl', allocN base N sl ar = some (L.take N, { sl with free_list := fl' }, ar) ∧
      FLRepr ar.mem fl' (L.drop N)
  | 0, sl, ar, L, hL, _ => ⟨sl.free_list, by simp [allocN], by simpa using hL⟩
  | N + 1, sl, ar, L, hL, hlen => by
    cases L with
    | nil => simp at hlen
    | cons hd tl =>
      obtain ⟨hpop, hnext⟩ := @alloc_pop base _ _ _ _ hL
      obtain ⟨fl', hrec, hrepr⟩ :=
        @allocN_pop base N { sl with free_list := ar.mem hd } ar tl hnext
          (by simpa using hlen)
      refine ⟨fl', ?_, by simpa using hrepr⟩
      simp [allocN, hpop, hrec, List.take_succ_cons]

lemma freeAll_in_pool {base : Nat} : ∀ (q : List Nat) (sl : SlabAllocator) (ar : Arena),
    (∀ x ∈ q, base ≤ x ∧ x < base + MAX_PAGES * PAGE_SIZE) →
    freeAll base q sl ar =
      ({ sl with free_list := (carve ar.mem sl.free_list q).2 },
       { ar with mem := (carve ar.mem sl.free_list q).1 })
  | [], sl, ar, _ => by simp [freeAll, carve]
  | p :: rest, sl, ar, hq => by
    have hp := hq p (List.mem_cons_self p rest)
    have hcheck : ¬ (p < base ∨ p ≥ base + MAX_PAGES * PAGE_SIZE) := by omega
    have hstep : sl.free base ar p =
        ({ sl with free_list := p }, { ar with mem := wr ar.mem p sl.free_list }) := by
      simp [SlabAllocator.free, hcheck]
    have := freeAll_in_pool rest { sl with free_list := p }
      { ar with mem := wr ar.mem p sl.free_list }
      (fun x hx => hq x (List.mem_cons_of_mem p hx))
    simp only [freeAll, hstep, this, carve]

lemma allocN_add (base m n : Nat) : ∀ (sl : SlabAllocator) (ar : Arena),
    allocN base (m + n) sl ar =
      match allocN base m sl ar with
      | some (l1, sl1, ar1) =>
        (match allocN base n sl1 ar1 with
         | some (l2, sl2, ar2) => some (l1 ++ l2, sl2, ar2)
         | none => none)
      | none => none := by
  induction m with
  | zero =>
    intro sl ar
    simp only [Nat.zero_add, allocN]
    cases h : allocN base n sl ar with
    | none => rfl
    | some v => rfl
  | succ m ih =>
    intro sl ar
    have hadd : m + 1 + n = (m + n) + 1 := by omega
    rw [hadd]
    simp only [allocN]
    cases h1 : sl.alloc base ar with
    | none => rfl
    | some v =>
      obtain ⟨r, sl1, ar1⟩ := v
      cases r with
      | none => rfl
      | some a =>
        dsimp only
        rw [ih sl1 ar1]
        cases h2 : allocN base m sl1 ar1 with
        | none => rfl
        | some v2 =>
          obtain ⟨l1, sl2, ar2⟩ := v2
          dsimp only
          cases h3 : allocN base n sl2 ar2 with
          | none => rfl
          | some v3 => rfl

end SlabModel
namespace SlabModel

lemma freshArena_cap : freshArena.used + PAGE_SIZE ≤ MAX_PAGES * PAGE_SIZE := by
  norm_num [freshArena, PAGE_SIZE, MAX_PAGES]

lemma allocN_fresh {base s N : Nat} {sl0 : SlabAllocator}
    (hb : 0 < base) (hnew : SlabAllocator.new s = some sl0)
    (hN1 : 1 ≤ N) (hN : N ≤ sl0.objects_per_page) :
    ∃ sl' ar',
      allocN base N sl0 freshArena =
        some (((slotAddrs (base + PTR_SIZE) sl0.object_size sl0.objects_per_page).reverse).take N,
          sl', ar') ∧
      sl'.object_size = sl0.object_size ∧ sl'.objects_per_page = sl0.objects_per_page ∧
      ar'.used = PAGE_SIZE ∧
      FLRepr ar'.mem sl'.free_list
        (((slotAddrs (base + PTR_SIZE) sl0.object_size sl0.objects_per_page).reverse).drop N) := by
  obtain ⟨hwf, hfl, -⟩ := new_wf hnew
  obtain ⟨N', rfl⟩ : ∃ N', N = N' + 1 := ⟨N - 1, by omega⟩
  obtain ⟨m, hm⟩ : ∃ m, sl0.objects_per_page = m + 1 := ⟨sl0.objects_per_page - 1, by omega⟩
  obtain ⟨sl1, ar1, hstep, hos1, hopp1, hused1, hrepr⟩ :=
    @alloc_carve_pop base sl0 freshArena m hb freshArena_cap hwf hfl hm
  have hds : base + freshArena.used + PTR_SIZE = base + PTR_SIZE := by simp [freshArena]
  rw [hds] at hstep hrepr
  have hlen : N' ≤ ((slotAddrs (base + PTR_SIZE) sl0.object_size m).reverse).length := by
    simp [slotAddrs]
    omega
  obtain ⟨fl', hrec, hrepr'⟩ := @allocN_pop base N' sl1 ar1 _ hrepr hlen
  refine ⟨{ sl1 with free_list := fl' }, ar1, ?_, by simpa using hos1,
    by simpa using hopp1, by simp [hused1, freshArena], ?_⟩
  · simp only [allocN, hstep, hrec]
    rw [hm, slotAddrs_succ, List.reverse_append, List.reverse_singleton,
      List.singleton_append, List.take_succ_cons]
  · rw [hm, slotAddrs_succ, List.reverse_append, List.reverse_singleton,
      List.singleton_append, List.drop_succ_cons]
    exact hrepr'

end SlabModel
namespace SlabModel

lemma allocate_page_used {base : Nat} {sl sl1 : SlabAllocator} {ar ar1 : Arena}
    (h : sl.allocate_page base ar = some (sl1, ar1)) :
    ar1.used = ar.used + PAGE_SIZE ∧ ar.used + PAGE_SIZE ≤ MAX_PAGES * PAGE_SIZE := by
  simp only [SlabAllocator.allocate_page] at h
  split at h
  · exact absurd h (by simp)
  · rename_i hg
    simp only [Option.some.injEq, Prod.mk.injEq] at h
    obtain ⟨-, h2⟩ := h
    rw [← h2]
    exact ⟨rfl, by omega⟩

lemma alloc_used {base : Nat} {sl sl' : SlabAllocator} {ar ar' : Arena} {r : Option Nat}
    (h : sl.alloc base ar = some (r, sl', ar')) :
    ar'.used = ar.used ∨
      (ar'.used = ar.used + PAGE_SIZE ∧ ar.used + PAGE_SIZE ≤ MAX_PAGES * PAGE_SIZE) := by
  simp only [SlabAllocator.alloc] at h
  by_cases hfl : sl.free_list = 0
  · rw [if_pos hfl] at h
    cases hap : sl.allocate_page base ar with
    | none =>
      rw [hap] at h
      simp only [Option.some.injEq, Prod.mk.injEq] at h
      left
      rw [← h.2.2]
    | some v =>
      obtain ⟨sl1, ar1⟩ := v
      rw [hap] at h
      dsimp only at h
      split at h
      · exact absurd h (by simp)
      · simp only [Option.some.injEq, Prod.mk.injEq] at h
        right
        rw [← h.2.2]
        exact allocate_page_used hap
  · rw [if_neg hfl] at h
    dsimp only at h
    split at h
    · exact absurd h (by simp)
    · simp only [Option.some.injEq, Prod.mk.injEq] at h
      left
      rw [← h.2.2]

lemma free_used {base : Nat} (sl : SlabAllocator) (ar : Arena) (p : Nat) :
    (sl.free base ar p).2.used = ar.used := by
  simp only [SlabAllocator.free]
  split <;> rfl

lemma mstep_used {base : Nat} {m m' : MCfg} (hs : MStep base m m') :
    (m'.ar.used = m.ar.used ∨
      (m'.ar.used = m.ar.used + PAGE_SIZE ∧
        m.ar.used + PAGE_SIZE ≤ MAX_PAGES * PAGE_SIZE)) := by
  cases hs with
  | mk_new s sl h => exact Or.inl rfl
  | do_alloc i sl sl' r ar' hget h => exact alloc_used h
  | do_free i sl p hget => exact Or.inl (free_used sl m.ar p)

lemma mreach_used {base : Nat} {m : MCfg} (hr : MReach base m) :
    PAGE_SIZE ∣ m.ar.used ∧ m.ar.used ≤ MAX_PAGES * PAGE_SIZE := by
  induction hr with
  | init => exact ⟨⟨0, rfl⟩, by norm_num [freshArena]⟩
  | step hr hs ih =>
    rcases mstep_used hs with h | ⟨h1, h2⟩
    · rw [h]; exact ih
    · exact ⟨h1 ▸ Nat.dvd_add ih.1 ⟨1, by omega⟩, by omega⟩

end SlabModel

namespace SlabModel

lemma allocate_page_none_iff {base : Nat} {sl : SlabAllocator} {ar : Arena} :
    sl.allocate_page base ar = none ↔ MAX_PAGES * PAGE_SIZE < ar.used + PAGE_SIZE := by
  simp only [SlabAllocator.allocate_page]
  split
  · rename_i hg
    exact iff_of_true rfl hg
  · rename_i hg
    exact iff_of_false (by simp) hg

lemma alloc_none_elim {base : Nat} {sl sl' : SlabAllocator} {ar ar' : Arena}
    (h : sl.alloc base ar = some (none, sl', ar')) :
    sl' = sl ∧ ar' = ar ∧ sl.free_list = 0 ∧
      MAX_PAGES * PAGE_SIZE < ar.used + PAGE_SIZE := by
  simp only [SlabAllocator.alloc] at h
  by_cases hfl : sl.free_list = 0
  · rw [if_pos hfl] at h
    cases hap : sl.allocate_page base ar with
    | none =>
      rw [hap] at h
      simp only [Option.some.injEq, Prod.mk.injEq] at h
      exact ⟨h.2.1.symm, h.2.2.symm, hfl, allocate_page_none_iff.1 hap⟩
    | some v =>
      obtain ⟨sl1, ar1⟩ := v
      rw [hap] at h
      dsimp only at h
      split at h
      · exact absurd h (by simp)
      · simp at h
  · rw [if_neg hfl] at h
    dsimp only at h
    split at h
    · exact absurd h (by simp)
    · simp at h

/-- Claim C1 (code bug).  The spec says a degenerate size class
(`objects_per_page == 0`) makes every `alloc` return `None` without panic
or undefined behaviour.  The code does not: with requested size 4096 the
instance has `objects_per_page = 0`, and on a fresh arena (plenty of
capacity left) the page carve succeeds without pushing any slot, the free
list stays null, and `alloc` dereferences the null pointer — undefined
behaviour (the model's outer `none`), contradicting the source's own
safety comment that `free_list` is non-null after `allocate_page`. -/
theorem C1_degenerate_alloc_ub :
    SlabAllocator.new 4096 = some ⟨4096, 0, 0, 0⟩ ∧
    freshArena.used + PAGE_SIZE ≤ MAX_PAGES * PAGE_SIZE ∧
    SlabAllocator.alloc 8 ⟨4096, 0, 0, 0⟩ freshArena = none := by
  refine ⟨by decide, by decide, by rfl⟩

/-- Claim C3 (confirmed).  With an empty free list, `alloc` returns `None`
(with both the instance and the arena unchanged) exactly when claiming one
more page would exceed the arena capacity; and `allocate_page` itself
fails exactly under that same condition, deterministically, leaving no
trace (it is a pure function of the state). -/
theorem C3_carve_fails_iff_arena_exhausted {base : Nat} {sl : SlabAllocator} {ar : Arena}
    (hfl : sl.free_list = 0) :
    (sl.alloc base ar = some (none, sl, ar) ↔
      MAX_PAGES * PAGE_SIZE < ar.used + PAGE_SIZE) ∧
    (∀ sl' ar', sl.alloc base ar = some (none, sl', ar') → sl' = sl ∧ ar' = ar) ∧
    (sl.allocate_page base ar = none ↔ MAX_PAGES * PAGE_SIZE < ar.used + PAGE_SIZE) := by
  refine ⟨⟨fun h => (alloc_none_elim h).2.2.2, fun hover => alloc_fail hfl hover⟩,
    fun sl' ar' h => ⟨(alloc_none_elim h).1, (alloc_none_elim h).2.1⟩,
    allocate_page_none_iff⟩

/-- Witness for C3: a concrete exhausted arena (all 16 pages carved) on
which `alloc` with an empty free list fails and changes nothing. -/
theorem C3_witness :
    (SlabAllocator.mk 64 63 0 0).free_list = 0 ∧
    SlabAllocator.alloc 8 ⟨64, 63, 0, 0⟩ ⟨MAX_PAGES * PAGE_SIZE, fun _ => 0⟩ =
      some (none, ⟨64, 63, 0, 0⟩, ⟨MAX_PAGES * PAGE_SIZE, fun _ => 0⟩) := by
  refine ⟨rfl, ?_⟩
  exact (C3_carve_fails_iff_arena_exhausted rfl).1.2 (by norm_num [MAX_PAGES, PAGE_SIZE])

/-- Claim C8 (confirmed).  Freeing any address outside
`[pool_start, pool_start + MAX_PAGES*PAGE_SIZE)` is a silent no-op: the
instance (free list, page list) and the arena (`used`, memory) are
returned unchanged, and a following `alloc` behaves exactly as if the
free had never happened. -/
theorem C8_out_of_pool_free_noop {base p : Nat} {sl : SlabAllocator} {ar : Arena}
    (h : p < base ∨ base + MAX_PAGES * PAGE_SIZE ≤ p) :
    sl.free base ar p = (sl, ar) ∧
    SlabAllocator.alloc base (sl.free base ar p).1 (sl.free base ar p).2 =
      sl.alloc base ar := by
  have hf : sl.free base ar p = (sl, ar) := by
    simp only [SlabAllocator.free]
    rw [if_pos h]
  exact ⟨hf, by rw [hf]⟩

/-- Witness for C8: freeing address 70000, which lies beyond the pool end
`8 + 16 * 4096 = 65544`, leaves a fresh allocator untouched. -/
theorem C8_witness :
    ((70000 : Nat) < 8 ∨ 8 + MAX_PAGES * PAGE_SIZE ≤ 70000) ∧
    SlabAllocator.free 8 ⟨64, 63, 0, 0⟩ freshArena 70000 = (⟨64, 63, 0, 0⟩, freshArena) ∧
    SlabAllocator.alloc 8 (SlabAllocator.free 8 ⟨64, 63, 0, 0⟩ freshArena 70000).1
        (SlabAllocator.free 8 ⟨64, 63, 0, 0⟩ freshArena 70000).2 =
      SlabAllocator.alloc 8 ⟨64, 63, 0, 0⟩ freshArena := by
  have h := @C8_out_of_pool_free_noop 8 70000 ⟨64, 63, 0, 0⟩ freshArena
    (by norm_num [MAX_PAGES, PAGE_SIZE])
  exact ⟨by norm_num [MAX_PAGES, PAGE_SIZE], h.1, h.2⟩

/-- Claim C10 (confirmed).  Any non-null pointer inside the pool bounds is
accepted by `free` unconditionally — never allocated, inside a page
header, in not-yet-carved space, or unaligned — and is pushed onto the
front of the free list (its link field receives the old head), so the
immediately following `alloc` returns exactly that pointer. -/
theorem C10_in_pool_free_pushes_any_pointer {base p : Nat} {sl : SlabAllocator} {ar : Arena}
    (hp0 : p ≠ 0) (hlo : base ≤ p) (hhi : p < base + MAX_PAGES * PAGE_SIZE) :
    (sl.free base ar p).1.free_list = p ∧
    (sl.free base ar p).2.mem p = sl.free_list ∧
    (sl.free base ar p).2.used = ar.used ∧
    allocRet base (sl.free base ar p).1 (sl.free base ar p).2 = some p := by
  have hcheck : ¬ (p < base ∨ p ≥ base + MAX_PAGES * PAGE_SIZE) := by omega
  have hf : sl.free base ar p =
      ({ sl with free_list := p }, { ar with mem := wr ar.mem p sl.free_list }) := by
    simp [SlabAllocator.free, hcheck]
  rw [hf]
  refine ⟨rfl, by simp [wr], rfl, ?_⟩
  simp [allocRet, SlabAllocator.alloc, hp0]

/-- Witness for C10: address 9 (unaligned, inside the first — not even
carved yet — page's header area) freed into a fresh allocator is returned
by the next `alloc`. -/
theorem C10_witness :
    (9 : Nat) ≠ 0 ∧ (8 : Nat) ≤ 9 ∧ (9 : Nat) < 8 + MAX_PAGES * PAGE_SIZE ∧
    allocRet 8 (SlabAllocator.free 8 ⟨64, 63, 0, 0⟩ freshArena 9).1
      (SlabAllocator.free 8 ⟨64, 63, 0, 0⟩ freshArena 9).2 = some 9 := by
  have h := @C10_in_pool_free_pushes_any_pointer 8 9 ⟨64, 63, 0, 0⟩ freshArena
    (by norm_num) (by norm_num) (by norm_num [MAX_PAGES, PAGE_SIZE])
  exact ⟨by norm_num, by norm_num, by norm_num [MAX_PAGES, PAGE_SIZE], h.2.2.2⟩

end SlabModel

namespace SlabModel

/-- Claim C2 (confirmed).  Along every proper-use history (frees only of
currently outstanding addresses), no slot is simultaneously on the free
list and outstanding, and `alloc` never returns an address that is still
outstanding. -/
theorem C2_no_outstanding_reuse {base : Nat} {c : C2Cfg}
    (hb : 0 < base) (hr : Reach base c) :
    (∀ L, FLRepr c.ar.mem c.sl.free_list L → ∀ x ∈ L, x ∉ c.out) ∧
    (∀ a sl' ar', c.sl.alloc base c.ar = some (some a, sl', ar') → a ∉ c.out) := by
  have hI := reach_inv hb hr
  constructor
  · obtain ⟨hwf, hcap, L, hL, hnd, hbd⟩ := hI
    intro L' hL' x hx hxo
    cases hL.unique hL'
    exact (List.disjoint_of_nodup_append hnd) hx hxo
  · intro a sl' ar' h
    exact (inv_alloc hb hI h).1

/-- Witness for C2: on the concrete reachable configuration obtained by
constructing `new 2048` on a fresh arena at pool base 8, the first
`alloc` returns slot 16, which is not outstanding. -/
theorem C2_witness :
    (0 : Nat) < 8 ∧
    SlabAllocator.new 2048 = some ⟨2048, 1, 0, 0⟩ ∧
    SlabAllocator.alloc 8 ⟨2048, 1, 0, 0⟩ freshArena =
      some (some 16, ⟨2048, 1, 0, 8⟩,
        ⟨4096, wr (wr freshArena.mem 8 0) 16 0⟩) ∧
    (16 : Nat) ∉ ([] : List Nat) := by
  refine ⟨by decide, by decide, by rfl, ?_⟩
  have h := @C2_no_outstanding_reuse 8 ⟨⟨2048, 1, 0, 0⟩, freshArena, []⟩ (by decide)
    (Reach.init 2048 ⟨2048, 1, 0, 0⟩ (by decide))
  exact h.2 16 ⟨2048, 1, 0, 8⟩ ⟨4096, wr (wr freshArena.mem 8 0) 16 0⟩ (by rfl)

/-- Claim C5 (counterexample).  At requested size `2^64 - 1` the code does
not set the claimed normalized fields: the `usize` round-up overflows and
construction panics (debug: checked add; release: the wrapped sum masks
to 0 and the division panics), modelled as `new` returning `none`. -/
theorem C5_counterexample :
    SlabAllocator.new (2 ^ 64 - 1) = none ∧
    ¬ ∃ sl : SlabAllocator, SlabAllocator.new (2 ^ 64 - 1) = some sl := by
  refine ⟨by rfl, ?_⟩
  rintro ⟨sl, h⟩
  have hn : SlabAllocator.new (2 ^ 64 - 1) = none := by rfl
  rw [hn] at h
  exact absurd h (by simp)

/-- Claim C5 (amended).  For every requested size whose round-up does not
overflow `usize` (`max(s, 8) + 7 < 2^64`), `new s` sets `object_size` to
`max(s, pointer_size)` rounded up to pointer alignment and
`objects_per_page` to `floor((PAGE_SIZE - header_size) / object_size)`;
in particular `new 64` yields `object_size = 64`,
`objects_per_page = 63`. -/
theorem C5_amended_normalization {s : Nat}
    (h : max s PTR_SIZE + (PTR_SIZE - 1) < USIZE) :
    (∃ sl, SlabAllocator.new s = some sl ∧
      sl.object_size = (max s PTR_SIZE + (PTR_SIZE - 1)) / PTR_SIZE * PTR_SIZE ∧
      sl.objects_per_page = (PAGE_SIZE - PTR_SIZE) / sl.object_size ∧
      sl.free_list = 0 ∧ sl.pages = 0) ∧
    SlabAllocator.new 64 = some ⟨64, 63, 0, 0⟩ := by
  constructor
  · cases hn : SlabAllocator.new s with
    | none =>
      simp only [SlabAllocator.new] at hn
      rw [if_pos h] at hn
      exact absurd hn (by simp)
    | some sl =>
      obtain ⟨-, h1, h2, h3, h4⟩ := new_elim hn
      exact ⟨sl, rfl, h1, h2, h3, h4⟩
  · decide

/-- Witness for C5 (amended) at requested size 13: normalized to
`object_size = 16`, `objects_per_page = 255`. -/
theorem C5_witness :
    max 13 PTR_SIZE + (PTR_SIZE - 1) < USIZE ∧
    SlabAllocator.new 13 = some ⟨16, 255, 0, 0⟩ ∧
    (16 : Nat) = (max 13 PTR_SIZE + (PTR_SIZE - 1)) / PTR_SIZE * PTR_SIZE ∧
    (255 : Nat) = (PAGE_SIZE - PTR_SIZE) / 16 := by
  have h := @C5_amended_normalization 13 (by decide)
  obtain ⟨⟨sl, hn, h1, h2, h3, h4⟩, -⟩ := h
  have hsl : sl = ⟨16, 255, 0, 0⟩ := by
    have : SlabAllocator.new 13 = some ⟨16, 255, 0, 0⟩ := by decide
    rw [this] at hn
    exact (Option.some.inj hn).symm
  subst hsl
  exact ⟨by decide, hn, by rw [← h1], by rw [← h2]⟩

/-- Claim C9 (confirmed).  Along every multi-instance history sharing the
arena, `used` is a multiple of `PAGE_SIZE` and bounded by
`MAX_PAGES * PAGE_SIZE`; and every single step leaves `used` unchanged or
advances it (monotone non-decreasing). -/
theorem C9_used_invariants {base : Nat} {m m' : MCfg} :
    (MReach base m → PAGE_SIZE ∣ m.ar.used ∧ m.ar.used ≤ MAX_PAGES * PAGE_SIZE) ∧
    (MStep base m m' → m.ar.used ≤ m'.ar.used) := by
  constructor
  · exact mreach_used
  · intro hs
    rcases mstep_used hs with h | ⟨h1, -⟩ <;> omega

/-- Witness for C9: the initial world is reachable and satisfies the
invariant, and the step constructing `new 64` does not decrease `used`. -/
theorem C9_witness :
    (PAGE_SIZE ∣ freshArena.used ∧ freshArena.used ≤ MAX_PAGES * PAGE_SIZE) ∧
    freshArena.used ≤ freshArena.used := by
  constructor
  · exact (@C9_used_invariants 8 ⟨[], freshArena⟩ ⟨[], freshArena⟩).1 MReach.init
  · exact (@C9_used_invariants 8 ⟨[], freshArena⟩ ⟨[⟨64, 63, 0, 0⟩], freshArena⟩).2
      (MStep.mk_new ⟨[], freshArena⟩ 64 ⟨64, 63, 0, 0⟩ (by decide))

end SlabModel

namespace SlabModel

/-- Claim C7 (confirmed).  Every page carve pushes all
`objects_per_page` slots of the new page onto the front of the free list
in slot order: the resulting free list is the page's slot list reversed,
prepended to the old list, so the first slot sits deepest and the last
(highest-addressed) slot is the head; consequently the first allocation
after the carve returns that last slot, and allocation proceeds
last-slot-first. -/
theorem C7_carve_slot_order {base : Nat} {sl : SlabAllocator} {ar : Arena} {L : List Nat}
    (hb : 0 < base)
    (hcap : ar.used + PAGE_SIZE ≤ MAX_PAGES * PAGE_SIZE)
    (hwf : SlabWF sl)
    (hL : FLRepr ar.mem sl.free_list L)
    (hLb : ∀ x ∈ L, base ≤ x ∧ x < base + ar.used) :
    ∃ sl' ar', sl.allocate_page base ar = some (sl', ar') ∧
      FLRepr ar'.mem sl'.free_list
        ((slotAddrs (base + ar.used + PTR_SIZE) sl.object_size
          sl.objects_per_page).reverse ++ L) ∧
      (1 ≤ sl.objects_per_page →
        sl'.free_list =
          base + ar.used + PTR_SIZE + (sl.objects_per_page - 1) * sl.object_size ∧
        (∀ x ∈ slotAddrs (base + ar.used + PTR_SIZE) sl.object_size sl.objects_per_page,
          x ≤ sl'.free_list) ∧
        allocRet base sl' ar' = some sl'.free_list) := by
  obtain ⟨sl', ar', hap, hos, hopp, hpg, hused, hrepr⟩ :=
    allocate_page_spec hb hcap hwf hL hLb
  refine ⟨sl', ar', hap, hrepr, fun h1 => ?_⟩
  obtain ⟨m, hm⟩ : ∃ m, sl.objects_per_page = m + 1 :=
    ⟨sl.objects_per_page - 1, by omega⟩
  rw [hm, slotAddrs_succ, List.reverse_append, List.reverse_singleton,
    List.singleton_append] at hrepr
  obtain ⟨hflv, hne, -⟩ := FLRepr_cons_elim hrepr
  refine ⟨by rw [hm]; simpa using hflv, ?_, ?_⟩
  · intro x hx
    simp only [slotAddrs, List.mem_map, List.mem_range] at hx
    obtain ⟨i, hi, rfl⟩ := hx
    rw [hflv, hm] at *
    have hmono : i * sl.object_size ≤ m * sl.object_size :=
      Nat.mul_le_mul_right _ (by omega)
    omega
  · simp [allocRet, SlabAllocator.alloc, hflv, hne]

/-- Witness for C7: carving the first page for a fresh `new 2048`
instance (one slot per page) at pool base 8. -/
theorem C7_witness :
    (0 : Nat) < 8 ∧
    freshArena.used + PAGE_SIZE ≤ MAX_PAGES * PAGE_SIZE ∧
    SlabWF ⟨2048, 1, 0, 0⟩ ∧
    (∃ sl' ar',
      SlabAllocator.allocate_page 8 ⟨2048, 1, 0, 0⟩ freshArena = some (sl', ar') ∧
      FLRepr ar'.mem sl'.free_list
        ((slotAddrs (8 + freshArena.used + PTR_SIZE) 2048 1).reverse ++ []) ∧
      (1 ≤ 1 →
        sl'.free_list = 8 + freshArena.used + PTR_SIZE + (1 - 1) * 2048 ∧
        (∀ x ∈ slotAddrs (8 + freshArena.used + PTR_SIZE) 2048 1,
          x ≤ sl'.free_list) ∧
        allocRet 8 sl' ar' = some sl'.free_list)) := by
  have hwf : SlabWF ⟨2048, 1, 0, 0⟩ := ⟨by decide, by decide⟩
  refine ⟨by decide, by decide, hwf, ?_⟩
  exact @C7_carve_slot_order 8 ⟨2048, 1, 0, 0⟩ freshArena []
    (by decide) (by decide) hwf FLRepr.nil (by simp)

end SlabModel
namespace SlabModel

/-- Claim C6 (counterexample).  With `new 2048` (so
`objects_per_page = 1`), allocating `objects_per_page + 1 = 2` objects
from a fresh instance on a fresh arena advances the arena cursor by
`2 * PAGE_SIZE`: two page-carve events occur (the very first allocation
already finds the free list empty and carves), not "exactly one". -/
theorem C6_counterexample :
    SlabAllocator.new 2048 = some ⟨2048, 1, 0, 0⟩ ∧
    usedAfter 8 (1 + 1) ⟨2048, 1, 0, 0⟩ = some (2 * PAGE_SIZE) ∧
    usedAfter 8 (1 + 1) ⟨2048, 1, 0, 0⟩ ≠ some (1 * PAGE_SIZE) := by
  exact ⟨by decide, by rfl, by decide⟩

/-- Claim C6 (amended).  Allocating `objects_per_page + 1` objects from a
fresh instance on a fresh arena causes exactly two page-carve events (the
first allocation carves the initial page because a fresh instance starts
with an empty free list, and the last allocation carves a second page),
observable as the arena cursor ending at `2 * PAGE_SIZE` and as the
`(objects_per_page + 1)`-th returned address lying in a different page of
the arena than the first returned address. -/
theorem C6_amended_two_carves {base s : Nat} {sl0 : SlabAllocator}
    (hb : 0 < base) (hnew : SlabAllocator.new s = some sl0)
    (hopp : 1 ≤ sl0.objects_per_page) :
    ∃ r sl' ar',
      allocN base (sl0.objects_per_page + 1) sl0 freshArena = some (r, sl', ar') ∧
      ar'.used = 2 * PAGE_SIZE ∧
      ∃ a1 alast, r.head? = some a1 ∧ r.getLast? = some alast ∧
        (a1 - base) / PAGE_SIZE = 0 ∧ (alast - base) / PAGE_SIZE = 1 := by
  obtain ⟨hwf, hfl0, -⟩ := new_wf hnew
  obtain ⟨m, hm⟩ : ∃ m, sl0.objects_per_page = m + 1 :=
    ⟨sl0.objects_per_page - 1, by omega⟩
  obtain ⟨sl1, ar1, hrun1, hos1, hopp1, hused1, hrepr1⟩ :=
    allocN_fresh hb hnew hopp (Nat.le_refl _)
  set R := (slotAddrs (base + PTR_SIZE) sl0.object_size sl0.objects_per_page).reverse
    with hR
  have hRlen : R.length = sl0.objects_per_page := by
    simp [hR, slotAddrs]
  have htake : R.take sl0.objects_per_page = R :=
    List.take_of_length_le (le_of_eq hRlen)
  have hdrop : R.drop sl0.objects_per_page = [] :=
    List.drop_of_length_le (le_of_eq hRlen)
  rw [hdrop] at hrepr1
  have hfl1 : sl1.free_list = 0 := FLRepr_nil_elim hrepr1
  have hwf1 : SlabWF sl1 := by
    constructor
    · rw [hos1]; exact hwf.1
    · rw [hopp1, hos1]; exact hwf.2
  have hcap1 : ar1.used + PAGE_SIZE ≤ MAX_PAGES * PAGE_SIZE := by
    rw [hused1]; norm_num [PAGE_SIZE, MAX_PAGES]
  have hopp1m : sl1.objects_per_page = m + 1 := by rw [hopp1, hm]
  obtain ⟨sl2, ar2, hstep2, hos2, hopp2, hused2, hrepr2⟩ :=
    alloc_carve_pop hb hcap1 hwf1 hfl1 hopp1m
  have hrun2 : allocN base 1 sl1 ar1 =
      some ([base + ar1.used + PTR_SIZE + m * sl1.object_size], sl2, ar2) := by
    simp [allocN, hstep2]
  have hcomp := allocN_add base sl0.objects_per_page 1 sl0 freshArena
  rw [hrun1] at hcomp
  dsimp only at hcomp
  rw [hrun2] at hcomp
  dsimp only at hcomp
  rw [htake] at hcomp
  refine ⟨R ++ [base + ar1.used + PTR_SIZE + m * sl1.object_size], sl2, ar2, hcomp,
    ?_, ?_⟩
  · rw [hused2, hused1]
    norm_num [PAGE_SIZE]
  · have hcnt : (m + 1) * sl0.object_size ≤ PAGE_SIZE - PTR_SIZE := hm ▸ hwf.2
    have hcnt' : m * sl0.object_size + sl0.object_size ≤ PAGE_SIZE - PTR_SIZE := by
      rw [Nat.succ_mul] at hcnt; omega
    have hos8 : PTR_SIZE ≤ sl0.object_size := hwf.1
    have hp8 : (PTR_SIZE : Nat) = 8 := rfl
    have hpg : (PAGE_SIZE : Nat) = 4096 := rfl
    refine ⟨base + PTR_SIZE + m * sl0.object_size,
      base + ar1.used + PTR_SIZE + m * sl1.object_size, ?_, ?_, ?_, ?_⟩
    · rw [hR, hm, slotAddrs_succ, List.reverse_append, List.reverse_singleton,
        List.singleton_append, List.cons_append, List.head?_cons]
    · exact List.getLast?_concat _
    · have : base + PTR_SIZE + m * sl0.object_size - base = PTR_SIZE + m * sl0.object_size := by
        omega
      rw [this]
      exact Nat.div_eq_of_lt (by omega)
    · rw [hos1, hused1]
      have : base + PAGE_SIZE + PTR_SIZE + m * sl0.object_size - base =
          (PTR_SIZE + m * sl0.object_size) + PAGE_SIZE := by omega
      rw [this, Nat.add_div_right _ (by omega), Nat.div_eq_of_lt (by omega)]

/-- Witness for C6 (amended) at base 8 with `new 2048`: the two returned
addresses are 16 (page 0) and 4112 (page 1), and the cursor ends at
8192. -/
theorem C6_witness :
    (0 : Nat) < 8 ∧
    SlabAllocator.new 2048 = some ⟨2048, 1, 0, 0⟩ ∧
    (1 : Nat) ≤ 1 ∧
    (∃ r sl' ar',
      allocN 8 (1 + 1) ⟨2048, 1, 0, 0⟩ freshArena = some (r, sl', ar') ∧
      ar'.used = 2 * PAGE_SIZE ∧
      ∃ a1 alast, r.head? = some a1 ∧ r.getLast? = some alast ∧
        (a1 - 8) / PAGE_SIZE = 0 ∧ (alast - 8) / PAGE_SIZE = 1) := by
  refine ⟨by decide, by decide, by decide, ?_⟩
  exact @C6_amended_two_carves 8 2048 ⟨2048, 1, 0, 0⟩
    (by decide) (by decide) (by decide)

end SlabModel

namespace SlabModel

/-- Claim C4 (confirmed).  From a fresh instance with
`objects_per_page ≥ 1`: allocating `N ≤ objects_per_page` slots returns
distinct in-arena addresses; freeing all of them (in any order `q`) and
allocating `N` more succeeds without carving a new page (the arena cursor
does not advance after the first round), again returns distinct in-arena
addresses, and the second round returns the freed addresses in reverse
order of freeing (last freed is first reallocated). -/
theorem C4_roundtrip_reuse {base s N : Nat} {sl0 : SlabAllocator} {q : List Nat}
    (hb : 0 < base) (hnew : SlabAllocator.new s = some sl0)
    (hN1 : 1 ≤ N) (hN : N ≤ sl0.objects_per_page) :
    ∃ r1 sl1 ar1, allocN base N sl0 freshArena = some (r1, sl1, ar1) ∧
      r1.Nodup ∧ (∀ x ∈ r1, base ≤ x ∧ x < base + MAX_PAGES * PAGE_SIZE) ∧
      (q.Perm r1 →
        (freeAll base q sl1 ar1).2.used = ar1.used ∧
        ∃ sl3 ar3,
          allocN base N (freeAll base q sl1 ar1).1 (freeAll base q sl1 ar1).2 =
            some (q.reverse, sl3, ar3) ∧
          ar3.used = ar1.used ∧ q.reverse.Nodup ∧
          ∀ x ∈ q.reverse, base ≤ x ∧ x < base + MAX_PAGES * PAGE_SIZE) := by
  obtain ⟨hwf, hfl0, -⟩ := new_wf hnew
  have hos8 : PTR_SIZE ≤ sl0.object_size := hwf.1
  have hp8 : (PTR_SIZE : Nat) = 8 := rfl
  have hpg : (PAGE_SIZE : Nat) = 4096 := rfl
  have hcapv : MAX_PAGES * PAGE_SIZE = 65536 := rfl
  obtain ⟨sl1, ar1, hrun1, hos1, hopp1, hused1, hrepr1⟩ :=
    allocN_fresh hb hnew hN1 hN
  set R := (slotAddrs (base + PTR_SIZE) sl0.object_size sl0.objects_per_page).reverse
    with hR
  have hRlen : R.length = sl0.objects_per_page := by simp [hR, slotAddrs]
  have hRnd : R.Nodup := List.nodup_reverse.2 (slotAddrs_nodup (by omega))
  have hRbd : ∀ x ∈ R, base ≤ x ∧ x < base + MAX_PAGES * PAGE_SIZE := by
    intro x hx
    have := @slotAddrs_bounds (base + PTR_SIZE) sl0.object_size sl0.objects_per_page (by omega) hwf.2 x
      (List.mem_reverse.1 hx)
    omega
  have htknd : (R.take N).Nodup := (List.take_sublist N R).nodup hRnd
  have htkbd : ∀ x ∈ R.take N, base ≤ x ∧ x < base + MAX_PAGES * PAGE_SIZE :=
    fun x hx => hRbd x (List.take_subset N R hx)
  refine ⟨R.take N, sl1, ar1, hrun1, htknd, htkbd, fun hperm => ?_⟩
  have hqnd : q.Nodup := (hperm.nodup_iff).2 htknd
  have hqbd : ∀ x ∈ q, base ≤ x ∧ x < base + MAX_PAGES * PAGE_SIZE :=
    fun x hx => htkbd x (hperm.mem_iff.1 hx)
  have hqdisj : ∀ x ∈ q, x ∉ R.drop N := by
    intro x hx hxd
    have hxt : x ∈ R.take N := hperm.mem_iff.1 hx
    have : R.Nodup := hRnd
    rw [← List.take_append_drop N R] at this
    exact (List.disjoint_of_nodup_append this) hxt hxd
  have hqlen : q.length = N := by
    rw [hperm.length_eq, List.length_take, hRlen]
    omega
  have hfa := @freeAll_in_pool base q sl1 ar1 hqbd
  have hrepr2 : FLRepr (carve ar1.mem sl1.free_list q).1
      (carve ar1.mem sl1.free_list q).2 (q.reverse ++ R.drop N) :=
    carve_spec q ar1.mem sl1.free_list (R.drop N) hrepr1
      (fun x hx => ⟨by have := hqbd x hx; omega, hqdisj x hx⟩) hqnd
  have hlen3 : N ≤ (q.reverse ++ R.drop N).length := by
    rw [List.length_append, List.length_reverse, hqlen]
    omega
  obtain ⟨fl', hrun3, -⟩ :=
    @allocN_pop base N
      { sl1 with free_list := (carve ar1.mem sl1.free_list q).2 }
      { ar1 with mem := (carve ar1.mem sl1.free_list q).1 }
      (q.reverse ++ R.drop N) hrepr2 hlen3
  have htk3 : (q.reverse ++ R.drop N).take N = q.reverse :=
    List.take_left' (by rw [List.length_reverse, hqlen])
  rw [htk3] at hrun3
  refine ⟨by rw [hfa], ?_⟩
  refine ⟨{ sl1 with free_list := fl' },
    { ar1 with mem := (carve ar1.mem sl1.free_list q).1 },
    ?_, rfl, List.nodup_reverse.2 hqnd,
    fun x hx => hqbd x (List.mem_reverse.1 hx)⟩
  rw [hfa]
  exact hrun3

/-- Witness for C4 at base 8 with `new 1024` (three slots per page),
`N = 2`, freeing order `q = [1040, 2064]` — a strict permutation of the
first round `[2064, 1040]`. -/
theorem C4_witness :
    (0 : Nat) < 8 ∧
    SlabAllocator.new 1024 = some ⟨1024, 3, 0, 0⟩ ∧
    (1 : Nat) ≤ 2 ∧ (2 : Nat) ≤ 3 ∧
    (∃ r1 sl1 ar1, allocN 8 2 ⟨1024, 3, 0, 0⟩ freshArena = some (r1, sl1, ar1) ∧
      r1.Nodup ∧ (∀ x ∈ r1, 8 ≤ x ∧ x < 8 + MAX_PAGES * PAGE_SIZE) ∧
      (([1040, 2064] : List Nat).Perm r1 →
        (freeAll 8 [1040, 2064] sl1 ar1).2.used = ar1.used ∧
        ∃ sl3 ar3,
          allocN 8 2 (freeAll 8 [1040, 2064] sl1 ar1).1
              (freeAll 8 [1040, 2064] sl1 ar1).2 =
            some (([1040, 2064] : List Nat).reverse, sl3, ar3) ∧
          ar3.used = ar1.used ∧ ([1040, 2064] : List Nat).reverse.Nodup ∧
          ∀ x ∈ ([1040, 2064] : List Nat).reverse,
            8 ≤ x ∧ x < 8 + MAX_PAGES * PAGE_SIZE)) := by
  refine ⟨by decide, by decide, by decide, by decide, ?_⟩
  exact @C4_roundtrip_reuse 8 1024 2 ⟨1024, 3, 0, 0⟩ [1040, 2064]
    (by decide) (by decide) (by decide) (by decide)

end SlabModel
